import Mathlib

/-
Shallow embedding of the python-arkfunds client library.

The repository wraps the arkfunds.io web API: it normalizes ticker-symbol
input, fetches JSON per symbol, and reshapes the JSON payloads into tabular
data (pandas DataFrames).  We embed:
  * JSON values (`JVal`) with Python truthiness (`JVal.falsy`);
  * DataFrames (`Frame`: ordered column names, rows of optional cells,
    and an integer index, mirroring the pandas index semantics for
    `pd.DataFrame`, `pd.concat`, `reset_index(drop=True)` and
    `sort_values`);
  * the transport result of `ArkFunds._get` (`None` on 404, error on
    4xx/5xx, parsed body otherwise);
  * the per-endpoint response shapers of `Stock` and `ETF`, and the
    `_dataframe` orchestration loops of both facades.
Python exceptions are modelled with `Except String`; the HTTP fetch is a
parameter `fetch : String → Option JVal` (`none` = HTTP 404).
-/

namespace Arkfunds

/-- JSON values as delivered by `res.json()`. -/
inductive JVal where
  | null
  | bool (b : Bool)
  | num (n : Int)
  | str (s : String)
  | arr (xs : List JVal)
  | obj (fields : List (String × JVal))

/-- Python truthiness: `not data` is true exactly on these values. -/
def JVal.falsy : JVal → Bool
  | .null => true
  | .bool b => !b
  | .num n => n == 0
  | .str s => s.isEmpty
  | .arr xs => xs.isEmpty
  | .obj fs => fs.isEmpty

/-- `data[k]` on a JSON value: `some` on a dict containing the key,
`none` when the key is missing (Python `KeyError`) or the value is not a
dict (Python `TypeError`). -/
def JVal.get? (v : JVal) (k : String) : Option JVal :=
  match v with
  | .obj fs => fs.lookup k
  | _ => none

/-- The character class of the token grammar `[\w\-.=^&]+` used by
`_convert_to_list` (`\w` modelled over ASCII: letters, digits, underscore). -/
def isTokenChar (c : Char) : Bool :=
  c.isAlphanum || c == '_' || c == '-' || c == '.' || c == '=' || c == '^' || c == '&'

/-- `re.findall(r"[\w\-.=^&]+", s)`: the maximal runs of token characters,
in input order.  `acc` holds the current run, reversed. -/
def findTokensAux : List Char → List Char → List String
  | [], acc => if acc.isEmpty then [] else [String.mk acc.reverse]
  | c :: cs, acc =>
    if isTokenChar c then
      findTokensAux cs (c :: acc)
    else if acc.isEmpty then
      findTokensAux cs []
    else
      String.mk acc.reverse :: findTokensAux cs []

def findTokens (s : String) : List String :=
  findTokensAux s.data []

/-- The argument of `_convert_to_list`: a Python `str` or a list of `str`. -/
inductive PyStrOrList where
  | pstr (s : String)
  | plist (l : List String)

/-- `utils._convert_to_list(symbols, comma_split)`:
a string is comma-split-and-stripped when `comma_split` is true and
regex-tokenized otherwise; a list is passed through unchanged. -/
def convert_to_list (symbols : PyStrOrList) (comma_split : Bool) : List String :=
  match symbols with
  | .pstr s => if comma_split then (s.splitOn ",").map String.trim else findTokens s
  | .plist l => l

/-- `ArkFunds._get`, as a function of the HTTP status and parsed body:
returns `none` (Python `None`) on HTTP 404; `res.raise_for_status()`
raises `requests.HTTPError` exactly for status codes 400..599; otherwise
`res.json()` is returned. -/
def arkfunds_get (status : Nat) (body : JVal) : Except Nat (Option JVal) :=
  if status = 404 then .ok none
  else if 400 ≤ status ∧ status < 600 then .error status
  else .ok (some body)

/-- A pandas DataFrame: ordered column names, rows of optional cells
(`none` = NaN/missing), and the index labels. -/
structure Frame where
  cols : List String
  rows : List (List (Option JVal))
  index : List Nat

/-- `pd.DataFrame(columns=columns)`: an empty frame with the given columns. -/
def emptyFrame (cols : List String) : Frame := ⟨cols, [], []⟩

/-- One row built from a JSON dict record: the declared columns select and
order the fields; missing fields become null cells (NaN), extra fields are
dropped.  The library only feeds dict records to `pd.DataFrame`; a
non-dict record is modelled as a failure. -/
def rowOfRecord (cols : List String) (v : JVal) : Except String (List (Option JVal)) :=
  match v with
  | .obj fs => .ok (cols.map (fun c => fs.lookup c))
  | _ => .error "DataFrame record is not a dict"

/-- Effectful map over a list in `Except`, processing elements left to
right and aborting at the first failure. -/
def mapME (f : α → Except String β) : List α → Except String (List β)
  | [] => .ok []
  | x :: xs => do
    let y ← f x
    let ys ← mapME f xs
    .ok (y :: ys)

/-- `pd.DataFrame(records, columns=columns)` for a list of dict records,
with the default dense index `0..n-1`. -/
def mkDataFrame (records : List JVal) (cols : List String) : Except String Frame := do
  let rows ← mapME (rowOfRecord cols) records
  .ok ⟨cols, rows, List.range rows.length⟩

/-- `df.empty`. -/
def Frame.isEmptyDf (f : Frame) : Bool := f.rows.isEmpty

/-- `df[c] = v` column assignment: overwrites the cell at column `c` of
every row (appending a new column when absent, as pandas does). -/
def Frame.setCol (f : Frame) (c : String) (v : JVal) : Frame :=
  if f.cols.contains c then
    { f with rows := f.rows.map (fun r => r.set (f.cols.indexOf c) (some v)) }
  else
    { f with cols := f.cols ++ [c], rows := f.rows.map (fun r => r ++ [some v]) }

/-- The cell of row `r` at column `c` (a null cell when the column is
absent). -/
def Frame.cell (f : Frame) (r : List (Option JVal)) (c : String) : Option JVal :=
  r.getD (f.cols.indexOf c) none

/-- `pd.concat(frames, axis=0)`: raises `ValueError` on an empty list;
otherwise stacks rows and index labels.  Every call site passes frames
sharing one column list, so the concatenated columns are those of the first
frame. -/
def pdConcat (fs : List Frame) : Except String Frame :=
  match fs with
  | [] => .error "ValueError: No objects to concatenate"
  | f :: _ => .ok ⟨f.cols, (fs.map Frame.rows).flatten, (fs.map Frame.index).flatten⟩

/-- Rank of the type of a JSON value.  The columns the library actually sorts on
(ticker, date, weight_rank) hold strings and numbers, compared by value;
the rank makes the comparison total across types. -/
def JVal.rank : JVal → Nat
  | .null => 0
  | .bool _ => 1
  | .num _ => 2
  | .str _ => 3
  | .arr _ => 4
  | .obj _ => 5

/-- Comparison of cell values used by `sort_values`. -/
def JVal.le (a b : JVal) : Bool :=
  match a, b with
  | .num m, .num n => decide (m ≤ n)
  | .str s, .str t => decide (s ≤ t)
  | .bool x, .bool y => !x || y
  | _, _ => decide (a.rank ≤ b.rank)

/-- Missing cells (NaN) sort last (`na_position="last"`). -/
def cellLE : Option JVal → Option JVal → Bool
  | none, none => true
  | none, some _ => false
  | some _, none => true
  | some a, some b => a.le b

/-- Lexicographic comparison of sort-key tuples. -/
def keyLE : List (Option JVal) → List (Option JVal) → Bool
  | [], _ => true
  | _ :: _, [] => false
  | a :: as, b :: bs =>
    if cellLE a b then (if cellLE b a then keyLE as bs else true) else false

/-- `df.sort_values(by=bys)`: sorts rows (keeping the index label of each row
with it) by the tuple of the named columns, ascending. -/
def Frame.sortValues (f : Frame) (bys : List String) : Frame :=
  let key := fun (r : List (Option JVal)) => bys.map (fun c => f.cell r c)
  let sorted := (f.rows.zip f.index).mergeSort (fun a b => keyLE (key a.1) (key b.1))
  { f with rows := sorted.map Prod.fst, index := sorted.map Prod.snd }

/-- `df.reset_index(drop=True)`. -/
def Frame.resetIndex (f : Frame) : Frame :=
  { f with index := List.range f.rows.length }

/-- The four stock operations (`Stock._COLUMNS` keys / `params["endpoint"]`
values produced by the public methods). -/
inductive StockOp where
  | profile
  | ownership
  | trades
  | price

/-- `Stock._COLUMNS`. -/
def stockColumns : StockOp → List String
  | .profile => ["ticker", "name", "country", "industry", "sector",
      "fullTimeEmployees", "summary", "website", "exchange", "currency",
      "marketCap", "sharesOutstanding"]
  | .ownership => ["ticker", "date", "fund", "weight", "weight_rank",
      "shares", "market_value"]
  | .trades => ["ticker", "date", "fund", "direction", "shares", "etf_percent"]
  | .price => ["ticker", "exchange", "currency", "price", "change",
      "changep", "last_trade"]

/-- Python `value is None`. -/
def JVal.isNull : JVal → Bool
  | .null => true
  | _ => false

/-- `Stock._handle_profile_data`. -/
def handle_profile_data (data : JVal) (cols : List String) : Except String Frame :=
  match data.get? "profile" with
  | none => .error "KeyError: profile"
  | some p => if p.falsy then .ok (emptyFrame cols) else mkDataFrame [p] cols

/-- `Stock._handle_price_data`: an empty frame when every non-"symbol"
value of the payload dict is None, else one row from the payload with the
ticker column overwritten by the requested symbol. -/
def handle_price_data (symbol : String) (data : JVal) (cols : List String) :
    Except String Frame :=
  match data with
  | .obj fs =>
    if fs.all (fun kv => kv.1 == "symbol" || kv.2.isNull) then .ok (emptyFrame cols)
    else do
      let f ← mkDataFrame [.obj fs] cols
      .ok (f.setCol "ticker" (.str symbol))
  | _ => .error "AttributeError: items"

/-- `Stock._handle_trades_data`: empty frame on a falsy trades list, else
one row per trade entry with the ticker column overwritten. -/
def handle_trades_data (symbol : String) (data : JVal) (cols : List String) :
    Except String Frame :=
  match data.get? "trades" with
  | none => .error "KeyError: trades"
  | some t =>
    if t.falsy then .ok (emptyFrame cols)
    else
      match t with
      | .arr xs => do
        let f ← mkDataFrame xs cols
        .ok (f.setCol "ticker" (.str symbol))
      | _ => .error "trades is not a list"

/-- One single-row frame per ownership entry, ticker overwritten
(`Stock._handle_ownership_data` inner loop body). -/
def ownershipEntryFrame (symbol : String) (cols : List String) (e : JVal) :
    Except String Frame := do
  let f ← mkDataFrame [e] cols
  .ok (f.setCol "ticker" (.str symbol))

/-- The frames contributed by one day block (`day_data["ownership"]`
iteration). -/
def ownershipDayFrames (symbol : String) (cols : List String) (day : JVal) :
    Except String (List Frame) :=
  match day.get? "ownership" with
  | none => .error "KeyError: ownership"
  | some (.arr entries) => mapME (ownershipEntryFrame symbol cols) entries
  | some _ => .error "ownership is not a list"

/-- `Stock._handle_ownership_data`: empty frame on falsy `data["data"]`;
otherwise the per-entry frames of all day blocks are concatenated
(`pd.concat` raises when no frame was produced), the index is reset, and
the rows are sorted by (ticker, date, weight_rank). -/
def handle_ownership_data (symbol : String) (data : JVal) (cols : List String) :
    Except String Frame :=
  match data.get? "data" with
  | none => .error "KeyError: data"
  | some d =>
    if d.falsy then .ok (emptyFrame cols)
    else
      match d with
      | .arr days => do
        let framess ← mapME (ownershipDayFrames symbol cols) days
        let c ← pdConcat framess.flatten
        .ok ((c.resetIndex).sortValues ["ticker", "date", "weight_rank"])
      | _ => .error "data is not a list"

/-- The endpoint dispatch of `Stock._dataframe`.  (The generic fallback
branch is unreachable for stock: all four endpoints have a dedicated
handler.) -/
def stockHandle (op : StockOp) (symbol : String) (data : JVal) (cols : List String) :
    Except String Frame :=
  match op with
  | .profile => handle_profile_data data cols
  | .ownership => handle_ownership_data symbol data cols
  | .price => handle_price_data symbol data cols
  | .trades => handle_trades_data symbol data cols

/-- The loop of `Stock._dataframe`: per symbol, fetch (`none` = 404);
`if not data: continue`; shape; `if df.empty: continue`; collect. -/
def stockFrames (fetch : String → Option JVal) (op : StockOp) (cols : List String) :
    List String → Except String (List Frame)
  | [] => .ok []
  | s :: rest =>
    match fetch s with
    | none => stockFrames fetch op cols rest
    | some data =>
      if data.falsy then stockFrames fetch op cols rest
      else do
        let df ← stockHandle op s data cols
        let dfs ← stockFrames fetch op cols rest
        .ok (if df.isEmptyDf then dfs else df :: dfs)

/-- `Stock._dataframe`: the empty schema-typed frame when no symbol
contributed a non-empty frame, else the concatenation with a dense reset
index. -/
def stock_dataframe (fetch : String → Option JVal) (op : StockOp)
    (symbols : List String) : Except String Frame := do
  let dfs ← stockFrames fetch op (stockColumns op) symbols
  if dfs.isEmpty then .ok (emptyFrame (stockColumns op))
  else do
    let c ← pdConcat dfs
    .ok c.resetIndex

/-- `ArkFunds.ARK_FUNDS`. -/
def ARK_FUNDS : List String :=
  ["ARKA", "ARKB", "ARKC", "ARKD", "ARKF", "ARKG", "ARKK", "ARKQ",
   "ARKVX", "ARKW", "ARKX", "ARKY", "ARKZ", "IZRL", "PRNT"]

/-- The symbol state an `ETF` object carries after `_validate_symbols`. -/
structure EtfState where
  symbols : List String
  invalid_symbols : Option (List String)

/-- `ETF._validate_symbols`: partitions the normalized symbols against the
`ARK_FUNDS` whitelist in input order; `invalid_symbols` is `None` when no
symbol was rejected (`invalid_symbols or None`). -/
def validate_symbols (symbols : List String) : EtfState :=
  let valid := symbols.filter (fun s => ARK_FUNDS.contains s)
  let invalid := symbols.filter (fun s => !ARK_FUNDS.contains s)
  ⟨valid, if invalid.isEmpty then none else some invalid⟩

/-- The five ETF operations. -/
inductive EtfOp where
  | profile
  | holdings
  | trades
  | news
  | performance

/-- `ETF._COLUMNS`. -/
def etfColumns : EtfOp → List String
  | .profile => ["symbol", "name", "description", "fund_type",
      "inception_date", "cusip", "isin", "website"]
  | .holdings => ["fund", "date", "company", "ticker", "cusip", "shares",
      "market_value", "share_price", "weight", "weight_rank"]
  | .trades => ["fund", "date", "direction", "ticker", "company", "cusip",
      "shares", "etf_percent"]
  | .news => ["id", "datetime", "related", "source", "headline", "summary",
      "url", "image"]
  | .performance => ["fund", "datatype", "as_of_date", "period", "return"]

/-- The `params["endpoint"]` string of each ETF operation. -/
def etfKey : EtfOp → String
  | .profile => "profile"
  | .holdings => "holdings"
  | .trades => "trades"
  | .news => "news"
  | .performance => "performance"

/-- `data[k]` raising `KeyError`/`TypeError` on failure. -/
def getKey (v : JVal) (k : String) : Except String JVal :=
  match v.get? k with
  | some x => .ok x
  | none => .error ("KeyError or TypeError: " ++ k)

/-- `xs[0]` on a JSON value. -/
def jIndex0 (v : JVal) : Except String JVal :=
  match v with
  | .arr (x :: _) => .ok x
  | .arr [] => .error "IndexError: list index out of range"
  | _ => .error "TypeError: not indexable by 0"

/-- One row of `_transform_performance_data` for the `overview` /
`trailingReturns` blocks. -/
def perfBlockRow (fund : JVal) (label : String) (asOf : JVal) (period : String)
    (ret : JVal) : JVal :=
  .obj [("fund", fund), ("datatype", .str label), ("as_of_date", asOf),
        ("period", .str period), ("return", ret)]

/-- Iterating one block with `.items()`: one row per key other than
`"asOfDate"`; building a row reads `block["asOfDate"]` (KeyError when
absent). -/
def perfBlockRows (fund : JVal) (label : String) (block : JVal) :
    Except String (List JVal) :=
  match block with
  | .obj fs =>
    mapME
      (fun kv =>
        match fs.lookup "asOfDate" with
        | some d => .ok (perfBlockRow fund label d kv.1 kv.2)
        | none => .error "KeyError: asOfDate")
      (fs.filter (fun kv => !(kv.1 == "asOfDate")))
  | _ => .error "AttributeError: items"

/-- Python `str()` / f-string interpolation for the scalar JSON values the
transform interpolates (the `year` field is an integer in the API
payloads; container reprs are abbreviated, no verified code path
interpolates them). -/
def pyStr : JVal → String
  | .num n => toString n
  | .str s => s
  | .bool true => "True"
  | .bool false => "False"
  | .null => "None"
  | .arr _ => "[...]"
  | .obj _ => "dict"

/-- One `annualReturns` element becomes one row with synthesized
`as_of_date` `f"{year}-12-31"` and `period` `str(year)`. -/
def annualRow (fund : JVal) (ar : JVal) : Except String JVal := do
  let y ← getKey ar "year"
  let v ← getKey ar "value"
  .ok (.obj [("fund", fund), ("datatype", .str "AnnualReturns"),
             ("as_of_date", .str (pyStr y ++ "-12-31")),
             ("period", .str (pyStr y)), ("return", v)])

/-- `ETF._transform_performance_data`: unnests `overview`,
`trailingReturns` and `annualReturns` of `data["performance"][0]` into a
flat row list keyed `"performance"`. -/
def transform_performance_data (data : JVal) : Except String JVal := do
  let fund ← getKey data "symbol"
  let perfList ← getKey data "performance"
  let performance ← jIndex0 perfList
  let overview ← getKey performance "overview"
  let trailing ← getKey performance "trailingReturns"
  let annualV ← getKey performance "annualReturns"
  let annual ←
    match annualV with
    | .arr xs => Except.ok xs
    | _ => Except.error "TypeError: annualReturns is not a list"
  let rows1 ← perfBlockRows fund "Overview" overview
  let rows2 ← perfBlockRows fund "TrailingReturns" trailing
  let rows3 ← mapME (annualRow fund) annual
  .ok (.obj [("performance", .arr (rows1 ++ rows2 ++ rows3))])

/-- An ASCII apostrophe, as Python list reprs quote strings. -/
def squote : String := String.singleton (Char.ofNat 39)

/-- Python `repr` of a list of strings, as the f-string renders
`self.invalid_symbols`. -/
def pyReprStrList (l : List String) : String :=
  "[" ++ String.intercalate ", " (l.map (fun s => squote ++ s ++ squote)) ++ "]"

def pyReprOptList : Option (List String) → String
  | none => "None"
  | some l => pyReprStrList l

/-- The error-as-string result returned by `ETF._dataframe` when no valid
symbols remain: it names the invalid symbols and lists the accepted fund
symbols. -/
def etfErrMsg (op : EtfOp) (invalid : Option (List String)) : String :=
  "ETF." ++ etfKey op ++ ": Invalid symbols " ++ pyReprOptList invalid ++
    ". Symbols accepted: " ++ String.intercalate ", " ARK_FUNDS

/-- `ETF._dataframe` returns either the error message string (no valid
symbols) or a DataFrame. -/
inductive EtfResult where
  | msg (s : String)
  | table (f : Frame)

/-- One iteration of the `ETF._dataframe` loop on the fetched value
(`none` = HTTP 404).  Unlike `Stock._dataframe` there is no `None` guard:
the performance transform and the `data[endpoint]` subscript raise
`TypeError` on `None`. -/
def etfShapeOne (op : EtfOp) (cols : List String) (data : Option JVal) :
    Except String Frame := do
  let d ←
    match data with
    | some d => Except.ok d
    | none => Except.error "TypeError: NoneType is not subscriptable"
  let d ←
    match op with
    | .performance => transform_performance_data d
    | _ => Except.ok d
  let v ← getKey d (etfKey op)
  match v with
  | .arr xs => mkDataFrame xs cols
  | _ => mkDataFrame [v] cols

/-- The loop of `ETF._dataframe`: every symbol contributes one frame,
appended unconditionally. -/
def etfFrames (fetch : String → Option JVal) (op : EtfOp) (cols : List String) :
    List String → Except String (List Frame)
  | [] => .ok []
  | s :: rest => do
    let df ← etfShapeOne op cols (fetch s)
    let dfs ← etfFrames fetch op cols rest
    .ok (df :: dfs)

/-- `ETF._dataframe`: the error-as-string when no valid symbols remain,
else the concatenation of the per-symbol frames with a dense reset
index. -/
def etf_dataframe (st : EtfState) (fetch : String → Option JVal) (op : EtfOp) :
    Except String EtfResult :=
  if st.symbols.isEmpty then .ok (.msg (etfErrMsg op st.invalid_symbols))
  else do
    let dfs ← etfFrames fetch op (etfColumns op) st.symbols
    let c ← pdConcat dfs
    .ok (.table c.resetIndex)

/-- The rows `Stock._dataframe` collects for one requested symbol: none on
404, a falsy payload, or a shaped frame that is empty (the shaper-failure
arm is never reached on runs that return a frame). -/
def stockContribRows (fetch : String → Option JVal) (op : StockOp) (s : String) :
    List (List (Option JVal)) :=
  match fetch s with
  | none => []
  | some data =>
    if data.falsy then []
    else
      match stockHandle op s data (stockColumns op) with
      | .ok df => df.rows
      | .error _ => []

/-- The rows `ETF._dataframe` collects for one requested symbol. -/
def etfContribRows (fetch : String → Option JVal) (op : EtfOp) (s : String) :
    List (List (Option JVal)) :=
  match etfShapeOne op (etfColumns op) (fetch s) with
  | .ok df => df.rows
  | .error _ => []

/-- The sort key used by `Stock._handle_ownership_data`. -/
def ownershipKey (f : Frame) (r : List (Option JVal)) : List (Option JVal) :=
  ["ticker", "date", "weight_rank"].map (f.cell r)

/-- The rows of `f` are sorted ascending by (ticker, date, weight_rank). -/
def ownershipSorted (f : Frame) : Prop :=
  f.rows.Pairwise (fun r s => keyLE (ownershipKey f r) (ownershipKey f s) = true)

end Arkfunds

open Arkfunds

/-- C1: the claim (and the repo test `test_stock_symbols_list`)
require `normalize("tsla, aapl, tdoc")`, `normalize("tsla aapl tdoc")` and
`normalize(["tsla","aapl","tdoc"])` to yield `["TSLA","AAPL","TDOC"]`.
The code (`_convert_to_list` with `comma_split=False`) tokenizes correctly
and order-preservingly but never uppercases, on any input path: evaluating
it at the inputs of that test yields the lowercase tokens, which differ from the
required uppercase result. -/
theorem c1_convert_to_list_does_not_uppercase :
    Arkfunds.convert_to_list (.pstr "tsla, aapl, tdoc") false = ["tsla", "aapl", "tdoc"]
    ∧ Arkfunds.convert_to_list (.pstr "tsla aapl tdoc") false = ["tsla", "aapl", "tdoc"]
    ∧ Arkfunds.convert_to_list (.plist ["tsla", "aapl", "tdoc"]) false = ["tsla", "aapl", "tdoc"]
    ∧ (["tsla", "aapl", "tdoc"] : List String) ≠ ["TSLA", "AAPL", "TDOC"] := by
  refine ⟨by decide, by decide, rfl, by decide⟩

/-- Reduction of an `Except` bind on a success value. -/
theorem exceptBind_ok (a : α) (f : α → Except String β) :
    (Except.ok a >>= f) = f a := rfl

/-- Reduction of an `Except` bind on a failure value. -/
theorem exceptBind_error (e : String) (f : α → Except String β) :
    ((Except.error e : Except String α) >>= f) = .error e := rfl

/-- A successful `mapME` relates inputs and outputs pointwise. -/
theorem mapME_ok_forall₂ {α β : Type} {f : α → Except String β} :
    ∀ {xs : List α} {ys : List β}, mapME f xs = .ok ys →
      List.Forall₂ (fun x y => f x = .ok y) xs ys := by
  intro xs
  induction xs with
  | nil =>
    intro ys h
    simp only [mapME] at h
    cases h
    exact .nil
  | cons x xs ih =>
    intro ys h
    simp only [mapME] at h
    cases hfx : f x with
    | error e => rw [hfx, exceptBind_error] at h; cases h
    | ok y =>
      rw [hfx, exceptBind_ok] at h
      cases hxs : mapME f xs with
      | error e => rw [hxs, exceptBind_error] at h; cases h
      | ok ys0 =>
        rw [hxs, exceptBind_ok] at h
        cases h
        exact .cons hfx (ih hxs)

/-- A successful `mapME` preserves length. -/
theorem mapME_ok_length {α β : Type} {f : α → Except String β}
    {xs : List α} {ys : List β} (h : mapME f xs = .ok ys) :
    ys.length = xs.length :=
  (mapME_ok_forall₂ h).length_eq.symm

/-- Every output of a successful `mapME` comes from some input. -/
theorem mapME_ok_mem {α β : Type} {f : α → Except String β}
    {xs : List α} {ys : List β} (h : mapME f xs = .ok ys) :
    ∀ y ∈ ys, ∃ x ∈ xs, f x = .ok y := by
  have hf := mapME_ok_forall₂ h
  clear h
  induction hf with
  | nil => intro y hy; cases hy
  | cons hfx _ ih =>
    intro y hy
    cases hy with
    | head => exact ⟨_, by simp, hfx⟩
    | tail _ hy =>
      obtain ⟨x, hx, hfx2⟩ := ih y hy
      exact ⟨x, by simp [hx], hfx2⟩

/-- `mapME` of a pointwise-successful function is the plain map. -/
theorem mapME_ok_of_forall {α β : Type} {f : α → Except String β} {g : α → β} :
    ∀ (xs : List α), (∀ x ∈ xs, f x = .ok (g x)) → mapME f xs = .ok (xs.map g) := by
  intro xs
  induction xs with
  | nil => intro _; rfl
  | cons x xs ih =>
    intro h
    simp only [mapME]
    rw [h x (by simp), exceptBind_ok, ih (fun a ha => h a (by simp [ha])), exceptBind_ok]
    rfl

/-- `mapME` succeeds when the function succeeds on every element. -/
theorem mapME_ok_exists {α β : Type} {f : α → Except String β} :
    ∀ (xs : List α), (∀ x ∈ xs, ∃ y, f x = .ok y) →
      ∃ ys, mapME f xs = .ok ys := by
  intro xs
  induction xs with
  | nil => intro _; exact ⟨[], rfl⟩
  | cons x xs ih =>
    intro h
    obtain ⟨y, hy⟩ := h x (by simp)
    obtain ⟨ys, hys⟩ := ih (fun a ha => h a (by simp [ha]))
    exact ⟨y :: ys, by simp only [mapME]; rw [hy, exceptBind_ok, hys, exceptBind_ok]⟩

/-- A successful `rowOfRecord` yields a row as long as the column list. -/
theorem rowOfRecord_ok_length {cols : List String} {v : JVal}
    {r : List (Option JVal)} (h : rowOfRecord cols v = .ok r) :
    r.length = cols.length := by
  cases v <;> simp_all [rowOfRecord]
  simp [← ‹List.map _ _ = r›]

/-- Shape facts about a successful `mkDataFrame`. -/
theorem mkDataFrame_ok {records : List JVal} {cols : List String} {F : Frame}
    (h : mkDataFrame records cols = .ok F) :
    F.cols = cols ∧ F.rows.length = records.length
      ∧ (∀ r ∈ F.rows, r.length = cols.length)
      ∧ F.index = List.range F.rows.length := by
  simp only [mkDataFrame] at h
  cases hm : mapME (rowOfRecord cols) records with
  | error e => rw [hm, exceptBind_error] at h; cases h
  | ok rows =>
    rw [hm, exceptBind_ok] at h
    cases h
    refine ⟨rfl, mapME_ok_length hm, ?_, rfl⟩
    intro r hr
    obtain ⟨v, _, hv⟩ := mapME_ok_mem hm r hr
    exact rowOfRecord_ok_length hv

theorem setCol_cols {F : Frame} {c : String} {v : JVal}
    (hmem : c ∈ F.cols) : (F.setCol c v).cols = F.cols := by
  simp [Frame.setCol, hmem]

theorem setCol_rows_length {F : Frame} {c : String} {v : JVal} :
    (F.setCol c v).rows.length = F.rows.length := by
  unfold Frame.setCol
  split <;> simp

/-- After `df[c] = v`, every row carries `v` at column `c`. -/
theorem setCol_cell {F : Frame} {c : String} {v : JVal}
    (hmem : c ∈ F.cols)
    (hlen : ∀ r ∈ F.rows, r.length = F.cols.length) :
    ∀ r ∈ (F.setCol c v).rows, (F.setCol c v).cell r c = some v := by
  intro r hr
  have hsc : F.setCol c v =
      { F with rows := F.rows.map (fun r => r.set (F.cols.indexOf c) (some v)) } := by
    simp [Frame.setCol, hmem]
  rw [hsc] at hr ⊢
  simp only [List.mem_map] at hr
  obtain ⟨r0, hr0, rfl⟩ := hr
  have hidx : F.cols.indexOf c < r0.length := by
    rw [hlen r0 hr0]
    exact List.indexOf_lt_length.mpr hmem
  simp [Frame.cell, List.getD, List.getElem?_set_self hidx]

/-- `setCol` keeps row lengths when the column exists. -/
theorem setCol_row_length {F : Frame} {c : String} {v : JVal}
    (hmem : c ∈ F.cols)
    (hlen : ∀ r ∈ F.rows, r.length = F.cols.length) :
    ∀ r ∈ (F.setCol c v).rows, r.length = F.cols.length := by
  intro r hr
  have hsc : F.setCol c v =
      { F with rows := F.rows.map (fun r => r.set (F.cols.indexOf c) (some v)) } := by
    simp [Frame.setCol, hmem]
  rw [hsc] at hr
  simp only [List.mem_map] at hr
  obtain ⟨r0, hr0, rfl⟩ := hr
  simp [hlen r0 hr0]

theorem pdConcat_ok_cols {fs : List Frame} {F : Frame} {cols : List String}
    (h : pdConcat fs = .ok F) (hc : ∀ fr ∈ fs, fr.cols = cols) : F.cols = cols := by
  cases fs with
  | nil => cases h
  | cons f rest =>
    simp only [pdConcat] at h
    cases h
    exact hc f (by simp)

theorem pdConcat_ok_rows {fs : List Frame} {F : Frame}
    (h : pdConcat fs = .ok F) : F.rows = (fs.map Frame.rows).flatten := by
  cases fs with
  | nil => cases h
  | cons f rest => simp only [pdConcat] at h; cases h; rfl

theorem sortValues_cols (f : Frame) (bys : List String) :
    (f.sortValues bys).cols = f.cols := rfl

theorem resetIndex_cols (f : Frame) : f.resetIndex.cols = f.cols := rfl

theorem resetIndex_rows (f : Frame) : f.resetIndex.rows = f.rows := rfl

/-- C6 (amended): `_get` returns the `None` sentinel exactly on status 404,
raises an `HTTPError` carrying the status for every other status in
400..599 (the statuses `raise_for_status` raises for), and returns the
parsed body for every remaining status — including non-2xx statuses
outside 400..599, such as 304, for which the claim wrongly demands an
error. -/
theorem c6_get_status_handling (status : Nat) (body : JVal) :
    (arkfunds_get status body = .ok none ↔ status = 404)
    ∧ (status ≠ 404 → 400 ≤ status → status < 600 →
        arkfunds_get status body = .error status)
    ∧ (status < 400 ∨ 600 ≤ status → arkfunds_get status body = .ok (some body)) := by
  unfold arkfunds_get
  refine ⟨?_, ?_, ?_⟩
  · constructor
    · intro h
      by_contra hne
      rw [if_neg hne] at h
      split at h <;> cases h
    · intro h; rw [if_pos h]
  · intro h1 h2 h3
    rw [if_neg h1, if_pos ⟨h2, h3⟩]
  · intro h
    have h1 : status ≠ 404 := by omega
    have h2 : ¬(400 ≤ status ∧ status < 600) := by omega
    rw [if_neg h1, if_neg h2]

/-- Witness for C6 at statuses 500, 200 and 404. -/
theorem c6_get_status_handling_witness :
    arkfunds_get 500 .null = .error 500
    ∧ arkfunds_get 200 .null = .ok (some .null)
    ∧ arkfunds_get 404 .null = .ok none :=
  ⟨(c6_get_status_handling 500 .null).2.1 (by omega) (by omega) (by omega),
   (c6_get_status_handling 200 .null).2.2 (Or.inl (by omega)),
   (c6_get_status_handling 404 .null).1.mpr rfl⟩

/-- C6 counterexample: HTTP 304 is neither 2xx nor 404, yet `_get` returns
the parsed body instead of raising an error carrying the status. -/
theorem c6_counterexample_status_304 :
    arkfunds_get 304 .null = .ok (some .null)
    ∧ ¬(200 ≤ 304 ∧ 304 < 300) ∧ (304 : Nat) ≠ 404 :=
  ⟨rfl, by omega, by omega⟩

/-- C9: after `_validate_symbols`, `invalid_symbols` is `None` exactly when
every requested symbol is whitelisted, and otherwise it is the non-empty
list of rejected symbols in request order.  (No method ever reassigns it:
in the embedding every operation is a pure function of the state.) -/
theorem c9_invalid_symbols_none_iff (symbols : List String) :
    ((validate_symbols symbols).invalid_symbols = none
      ↔ ∀ s ∈ symbols, s ∈ ARK_FUNDS)
    ∧ (∀ l, (validate_symbols symbols).invalid_symbols = some l →
        l ≠ [] ∧ l = symbols.filter (fun s => !ARK_FUNDS.contains s)) := by
  simp only [validate_symbols]
  constructor
  · constructor
    · intro h s hs
      split at h
      · next he =>
        rw [List.isEmpty_iff, List.filter_eq_nil_iff] at he
        have := he s hs
        simpa using this
      · cases h
    · intro h
      rw [if_pos]
      rw [List.isEmpty_iff, List.filter_eq_nil_iff]
      intro a ha
      simp [h a ha]
  · intro l hl
    split at hl
    · cases hl
    · next he =>
      cases hl
      rw [List.isEmpty_iff] at he
      exact ⟨he, rfl⟩

/-- Witness for C9: all-valid input `["ARKK"]` gives `None`; the unknown
symbol `["LOLOIL"]` gives the non-empty rejected list. -/
theorem c9_invalid_symbols_none_iff_witness :
    (validate_symbols ["ARKK"]).invalid_symbols = none
    ∧ ((["LOLOIL"] : List String) ≠ []
        ∧ ["LOLOIL"] = (["LOLOIL"] : List String).filter (fun s => !ARK_FUNDS.contains s)) :=
  ⟨(c9_invalid_symbols_none_iff ["ARKK"]).1.mpr (by decide),
   (c9_invalid_symbols_none_iff ["LOLOIL"]).2 ["LOLOIL"] (by decide)⟩

/-- `JVal.le` is total. -/
theorem jvalLe_total (a b : JVal) : a.le b || b.le a := by
  cases a <;> cases b <;>
    simp only [JVal.le, JVal.rank, Bool.or_eq_true, decide_eq_true_eq] <;>
    first
    | omega
    | exact le_total _ _
    | (rename_i x y; cases x <;> cases y <;> simp)

/-- `JVal.le` is transitive. -/
theorem jvalLe_trans {a b c : JVal} (h1 : a.le b = true) (h2 : b.le c = true) :
    a.le c = true := by
  cases a <;> cases b <;> cases c <;>
    simp only [JVal.le, JVal.rank, decide_eq_true_eq] at h1 h2 ⊢ <;>
    first
    | omega
    | exact le_trans h1 h2
    | exact absurd h1 (by omega)
    | exact absurd h2 (by omega)
    | (rename_i x y z; cases x <;> cases y <;> cases z <;> simp_all)

theorem cellLE_total (a b : Option JVal) : cellLE a b || cellLE b a := by
  cases a with
  | none => cases b <;> simp [cellLE]
  | some x =>
    cases b with
    | none => simp [cellLE]
    | some y => simpa [cellLE] using jvalLe_total x y

theorem cellLE_trans {a b c : Option JVal} (h1 : cellLE a b = true)
    (h2 : cellLE b c = true) : cellLE a c = true := by
  cases a <;> cases b <;> cases c <;>
    (simp_all [cellLE]; try exact jvalLe_trans h1 h2)


theorem keyLE_total (xs ys : List (Option JVal)) : keyLE xs ys || keyLE ys xs := by
  induction xs generalizing ys with
  | nil => simp [keyLE]
  | cons a as ih =>
    cases ys with
    | nil => simp [keyLE]
    | cons b bs =>
      simp only [keyLE]
      cases hab : cellLE a b <;> cases hba : cellLE b a
      · have := cellLE_total a b
        rw [hab, hba] at this
        cases this
      · simp
      · simp
      · simpa using ih bs

theorem keyLE_trans (xs ys zs : List (Option JVal)) (h1 : keyLE xs ys = true)
    (h2 : keyLE ys zs = true) : keyLE xs zs = true := by
  induction xs generalizing ys zs with
  | nil => rfl
  | cons a as ih =>
    cases ys with
    | nil => exact absurd h1 (by simp [keyLE])
    | cons b bs =>
      cases zs with
      | nil => exact absurd h2 (by simp [keyLE])
      | cons c cs =>
        simp only [keyLE] at h1 h2 ⊢
        cases hab : cellLE a b with
        | false => rw [hab] at h1; simp at h1
        | true =>
          rw [hab] at h1
          cases hbc : cellLE b c with
          | false => rw [hbc] at h2; simp at h2
          | true =>
            rw [hbc] at h2
            rw [cellLE_trans hab hbc]
            simp only [if_true]
            cases hca : cellLE c a with
            | false => simp [hca]
            | true =>
              have hba : cellLE b a = true := cellLE_trans hbc hca
              have hcb : cellLE c b = true := cellLE_trans hca hab
              rw [hba] at h1
              rw [hcb] at h2
              simp only [if_true] at h1 h2
              simp [hca, ih bs cs h1 h2]

/-- The output of `sort_values` is sorted by the requested key. -/
theorem sortValues_sorted (f : Frame) (bys : List String) :
    (f.sortValues bys).rows.Pairwise (fun r s =>
      keyLE (bys.map (f.cell r)) (bys.map (f.cell s)) = true) := by
  have hs := @List.sorted_mergeSort (List (Option JVal) × Nat)
    (fun a b =>
      keyLE (bys.map (fun c => f.cell a.1 c)) (bys.map (fun c => f.cell b.1 c)))
    (fun a b c h1 h2 => keyLE_trans _ _ _ h1 h2)
    (fun a b => keyLE_total _ _)
    (f.rows.zip f.index)
  exact hs.map Prod.fst (fun a b h => h)

/-- Rows of the sorted frame come from the original frame. -/
theorem sortValues_mem_rows {f : Frame} {bys : List String}
    {r : List (Option JVal)} (h : r ∈ (f.sortValues bys).rows) : r ∈ f.rows := by
  simp only [Frame.sortValues, List.mem_map] at h
  obtain ⟨p, hp, rfl⟩ := h
  have hz := (List.mergeSort_perm (f.rows.zip f.index) _).mem_iff.mp hp
  exact (List.of_mem_zip hz).1

theorem sortValues_rows_length (f : Frame) (bys : List String) :
    (f.sortValues bys).rows.length = min f.rows.length f.index.length := by
  simp [Frame.sortValues]

/-- The ETF loop only consults the fetch function on the symbols it
iterates. -/
theorem etfFrames_congr {f g : String → Option JVal} (op : EtfOp)
    (cols : List String) (l : List String) (h : ∀ s ∈ l, f s = g s) :
    etfFrames f op cols l = etfFrames g op cols l := by
  induction l with
  | nil => rfl
  | cons s rest ih =>
    simp only [etfFrames]
    rw [h s (by simp), ih (fun a ha => h a (by simp [ha]))]

/-- C7: `_validate_symbols` keeps exactly the whitelisted symbols (in
request order); unknown symbols make `invalid_symbols` a non-empty list;
when no valid symbol remains, every operation returns the descriptive
error string (naming the invalid symbols and the accepted fund symbols)
instead of raising; and lookups only ever consult the fetch on whitelist
members, i.e. only the valid subset is queried. -/
theorem c7_etf_symbol_whitelisting (symbols : List String) :
    ((validate_symbols symbols).symbols
        = symbols.filter (fun s => ARK_FUNDS.contains s))
    ∧ ((∃ s ∈ symbols, s ∉ ARK_FUNDS) →
        ∃ l, (validate_symbols symbols).invalid_symbols = some l ∧ l ≠ [])
    ∧ ((validate_symbols symbols).symbols = [] →
        ∀ (op : EtfOp) (fetch : String → Option JVal),
          etf_dataframe (validate_symbols symbols) fetch op
            = .ok (.msg (etfErrMsg op (validate_symbols symbols).invalid_symbols)))
    ∧ (∀ (op : EtfOp) (f g : String → Option JVal),
        (∀ s ∈ ARK_FUNDS, f s = g s) →
          etf_dataframe (validate_symbols symbols) f op
            = etf_dataframe (validate_symbols symbols) g op) := by
  refine ⟨rfl, ?_, ?_, ?_⟩
  · rintro ⟨s, hs, hns⟩
    refine ⟨symbols.filter (fun s => !ARK_FUNDS.contains s), ?_, ?_⟩
    · simp only [validate_symbols]
      rw [if_neg]
      simp only [List.isEmpty_iff, List.filter_eq_nil_iff, not_forall]
      exact ⟨s, hs, by simp [hns]⟩
    · apply List.ne_nil_of_mem (a := s)
      exact List.mem_filter.mpr ⟨hs, by simp [hns]⟩
  · intro h op fetch
    unfold etf_dataframe
    rw [if_pos (by simp [h])]
  · intro op f g hfg
    unfold etf_dataframe
    split
    · rfl
    · rw [etfFrames_congr op (etfColumns op) (validate_symbols symbols).symbols ?_]
      intro s hs
      apply hfg
      have hm : s ∈ symbols ∧ s ∈ ARK_FUNDS := by simpa [validate_symbols] using hs
      exact hm.2

/-- Witness for C7 at the invalid input `["LOLOIL"]`. -/
theorem c7_etf_symbol_whitelisting_witness :
    (validate_symbols ["LOLOIL"]).symbols
        = (["LOLOIL"] : List String).filter (fun s => ARK_FUNDS.contains s)
    ∧ (∃ l, (validate_symbols ["LOLOIL"]).invalid_symbols = some l ∧ l ≠ [])
    ∧ etf_dataframe (validate_symbols ["LOLOIL"]) (fun _ => none) .profile
        = .ok (.msg (etfErrMsg .profile (validate_symbols ["LOLOIL"]).invalid_symbols)) :=
  ⟨(c7_etf_symbol_whitelisting ["LOLOIL"]).1,
   (c7_etf_symbol_whitelisting ["LOLOIL"]).2.1 ⟨"LOLOIL", by simp, by decide⟩,
   (c7_etf_symbol_whitelisting ["LOLOIL"]).2.2.1 (by decide) .profile (fun _ => none)⟩

/-- A 404 symbol is skipped by the `Stock._dataframe` loop. -/
theorem stockFrames_404_skip (fetch : String → Option JVal) (op : StockOp)
    (cols : List String) (pre post : List String) (s : String)
    (h : fetch s = none) :
    stockFrames fetch op cols (pre ++ s :: post)
      = stockFrames fetch op cols (pre ++ post) := by
  induction pre with
  | nil => simp only [List.nil_append, stockFrames, h]
  | cons x xs ih =>
    simp only [List.cons_append, stockFrames, List.append_eq]
    rw [ih]

/-- C2 (amended): on the Stock facade a 404 for one symbol contributes
zero records, raises nothing, and leaves the result exactly what the same
call without that symbol produces — the remaining symbols are still
fetched and shaped.  (On the ETF facade the claim fails: see the
counterexample — `ETF._dataframe` has no `None` guard and the 404
sentinel raises a `TypeError`.) -/
theorem c2_stock_404_tolerated (fetch : String → Option JVal) (op : StockOp)
    (pre post : List String) (s : String) (h : fetch s = none) :
    stock_dataframe fetch op (pre ++ s :: post)
      = stock_dataframe fetch op (pre ++ post) := by
  unfold stock_dataframe
  rw [stockFrames_404_skip fetch op (stockColumns op) pre post s h]

/-- Witness for C2 with a 404 symbol in front of a remaining symbol. -/
theorem c2_stock_404_tolerated_witness :
    stock_dataframe (fun _ => none) .profile ([] ++ "LOLOIL" :: ["TSLA"])
      = stock_dataframe (fun _ => none) .profile ([] ++ ["TSLA"]) :=
  c2_stock_404_tolerated (fun _ => none) .profile [] ["TSLA"] "LOLOIL" rfl

/-- C2 counterexample: a multi-symbol-capable ETF call where the (single)
requested symbol gets a 404 raises a `TypeError` instead of treating it
as zero records. -/
theorem c2_counterexample_etf_404_raises :
    etf_dataframe ⟨["ARKK"], none⟩ (fun _ => none) .profile
      = .error "TypeError: NoneType is not subscriptable" := by
  rfl

/-- The frames collected by the Stock loop flatten to the per-symbol
contributions in request order. -/
theorem stockFrames_rows (fetch : String → Option JVal) (op : StockOp)
    (symbols : List String) : ∀ {dfs : List Frame},
    stockFrames fetch op (stockColumns op) symbols = .ok dfs →
    (dfs.map Frame.rows).flatten = symbols.flatMap (stockContribRows fetch op) := by
  induction symbols with
  | nil =>
    intro dfs h
    simp only [stockFrames] at h
    cases h
    rfl
  | cons s rest ih =>
    intro dfs h
    simp only [stockFrames] at h
    cases hfs : fetch s with
    | none =>
      simp only [hfs] at h
      simp only [List.flatMap_cons, stockContribRows, hfs, List.nil_append]
      exact ih h
    | some data =>
      simp only [hfs] at h
      cases hfal : data.falsy with
      | true =>
        rw [hfal] at h
        simp only [if_true] at h
        simp only [List.flatMap_cons, stockContribRows, hfs, hfal, if_true,
          List.nil_append]
        exact ih h
      | false =>
        rw [hfal] at h
        simp only [Bool.false_eq_true, if_false] at h
        cases hsh : stockHandle op s data (stockColumns op) with
        | error e => rw [hsh, exceptBind_error] at h; cases h
        | ok df =>
          rw [hsh, exceptBind_ok] at h
          cases hsf : stockFrames fetch op (stockColumns op) rest with
          | error e => rw [hsf, exceptBind_error] at h; cases h
          | ok dfs0 =>
            rw [hsf, exceptBind_ok] at h
            cases h
            simp only [List.flatMap_cons, stockContribRows, hfs, hfal,
              Bool.false_eq_true, if_false, hsh]
            cases hemp : df.isEmptyDf with
            | true =>
              have : df.rows = [] := by
                simpa [Frame.isEmptyDf, List.isEmpty_iff] using hemp
              simp only [hemp, if_true, this, List.nil_append]
              exact ih hsf
            | false =>
              simp only [hemp, Bool.false_eq_true, if_false, List.map_cons,
                List.flatten_cons]
              rw [ih hsf]

/-- The frames collected by the ETF loop flatten to the per-symbol
contributions in request order. -/
theorem etfFrames_rows (efetch : String → Option JVal) (eop : EtfOp)
    (symbols : List String) : ∀ {dfs : List Frame},
    etfFrames efetch eop (etfColumns eop) symbols = .ok dfs →
    (dfs.map Frame.rows).flatten = symbols.flatMap (etfContribRows efetch eop) := by
  induction symbols with
  | nil =>
    intro dfs h
    simp only [etfFrames] at h
    cases h
    rfl
  | cons s rest ih =>
    intro dfs h
    simp only [etfFrames] at h
    cases hsh : etfShapeOne eop (etfColumns eop) (efetch s) with
    | error e => rw [hsh, exceptBind_error] at h; cases h
    | ok df =>
      rw [hsh, exceptBind_ok] at h
      cases hrest : etfFrames efetch eop (etfColumns eop) rest with
      | error e => rw [hrest, exceptBind_error] at h; cases h
      | ok dfs0 =>
        rw [hrest, exceptBind_ok] at h
        cases h
        simp only [List.flatMap_cons, etfContribRows, hsh, List.map_cons,
          List.flatten_cons]
        rw [ih hrest]

/-- C8: on both facades the per-symbol record sequences are concatenated
in request order (all records of an earlier-requested symbol precede all
records of a later-requested one) and the final index is reset to the
dense range `0..n-1`. -/
theorem c8_request_order_concat (fetch : String → Option JVal) (op : StockOp)
    (symbols : List String) :
    (∀ f, stock_dataframe fetch op symbols = .ok f →
        f.rows = symbols.flatMap (stockContribRows fetch op)
        ∧ f.index = List.range f.rows.length)
    ∧ (∀ (st : EtfState) (eop : EtfOp) (efetch : String → Option JVal) (g : Frame),
        etf_dataframe st efetch eop = .ok (.table g) →
          g.rows = st.symbols.flatMap (etfContribRows efetch eop)
          ∧ g.index = List.range g.rows.length) := by
  constructor
  · intro f h
    simp only [stock_dataframe] at h
    cases hsf : stockFrames fetch op (stockColumns op) symbols with
    | error e => rw [hsf, exceptBind_error] at h; cases h
    | ok dfs =>
      rw [hsf, exceptBind_ok] at h
      cases dfs with
      | nil =>
        simp only [List.isEmpty_nil, if_true] at h
        cases h
        constructor
        · have := stockFrames_rows fetch op symbols hsf
          simpa [emptyFrame] using this.symm
        · rfl
      | cons d ds =>
        simp only [List.isEmpty_cons, Bool.false_eq_true, if_false] at h
        rw [show pdConcat (d :: ds) = .ok
            ⟨d.cols, ((d :: ds).map Frame.rows).flatten,
              ((d :: ds).map Frame.index).flatten⟩ from rfl, exceptBind_ok] at h
        cases h
        refine ⟨?_, rfl⟩
        simpa using stockFrames_rows fetch op symbols hsf
  · intro st eop efetch g h
    simp only [etf_dataframe] at h
    split at h
    · cases h
    · cases hef : etfFrames efetch eop (etfColumns eop) st.symbols with
      | error e => rw [hef, exceptBind_error] at h; cases h
      | ok dfs =>
        rw [hef, exceptBind_ok] at h
        cases dfs with
        | nil => cases h
        | cons d ds =>
          rw [show pdConcat (d :: ds) = .ok
              ⟨d.cols, ((d :: ds).map Frame.rows).flatten,
                ((d :: ds).map Frame.index).flatten⟩ from rfl, exceptBind_ok] at h
          cases h
          refine ⟨?_, rfl⟩
          simpa using etfFrames_rows efetch eop st.symbols hef

/-- Witness for C8 on concrete stock and ETF calls. -/
theorem c8_request_order_concat_witness :
    ((emptyFrame (stockColumns .profile)).rows
        = ["TSLA"].flatMap (stockContribRows (fun _ => none) .profile)
      ∧ (emptyFrame (stockColumns .profile)).index
        = List.range (emptyFrame (stockColumns .profile)).rows.length)
    ∧ ((Frame.mk (etfColumns .profile)
          [[some (.str "ARKK"), none, none, none, none, none, none, none]] [0]).rows
        = (EtfState.mk ["ARKK"] none).symbols.flatMap
            (etfContribRows (fun _ => some (.obj [("profile",
              .obj [("symbol", .str "ARKK")])])) .profile)
      ∧ (Frame.mk (etfColumns .profile)
          [[some (.str "ARKK"), none, none, none, none, none, none, none]] [0]).index
        = List.range (Frame.mk (etfColumns .profile)
          [[some (.str "ARKK"), none, none, none, none, none, none, none]] [0]).rows.length) :=
  ⟨(c8_request_order_concat (fun _ => none) .profile ["TSLA"]).1
      (emptyFrame (stockColumns .profile)) rfl,
   (c8_request_order_concat (fun _ => none) .profile ["TSLA"]).2
      (EtfState.mk ["ARKK"] none) .profile
      (fun _ => some (.obj [("profile", .obj [("symbol", .str "ARKK")])]))
      (Frame.mk (etfColumns .profile)
        [[some (.str "ARKK"), none, none, none, none, none, none, none]] [0]) rfl⟩

theorem handle_profile_data_cols {data : JVal} {cols : List String} {F : Frame}
    (h : handle_profile_data data cols = .ok F) : F.cols = cols := by
  simp only [handle_profile_data] at h
  cases hg : data.get? "profile" with
  | none => rw [hg] at h; cases h
  | some p =>
    rw [hg] at h
    have h2 : (if p.falsy = true then Except.ok (emptyFrame cols)
        else mkDataFrame [p] cols) = .ok F := h
    split at h2
    · cases h2; rfl
    · exact (mkDataFrame_ok h2).1

theorem handle_price_data_cols {symbol : String} {data : JVal}
    {cols : List String} {F : Frame} (hmem : "ticker" ∈ cols)
    (h : handle_price_data symbol data cols = .ok F) : F.cols = cols := by
  cases data with
  | obj fs =>
    have h2 : (if fs.all (fun kv => kv.1 == "symbol" || kv.2.isNull) = true
        then Except.ok (emptyFrame cols)
        else mkDataFrame [JVal.obj fs] cols >>= fun f =>
          Except.ok (f.setCol "ticker" (JVal.str symbol))) = .ok F := h
    split at h2
    · cases h2; rfl
    · cases hmk : mkDataFrame [JVal.obj fs] cols with
      | error e => rw [hmk, exceptBind_error] at h2; cases h2
      | ok F0 =>
        rw [hmk, exceptBind_ok] at h2
        cases h2
        have hc := (mkDataFrame_ok hmk).1
        rw [setCol_cols (by rw [hc]; exact hmem), hc]
  | null => cases h
  | bool b => cases h
  | num n => cases h
  | str s => cases h
  | arr xs => cases h

theorem handle_trades_data_cols {symbol : String} {data : JVal}
    {cols : List String} {F : Frame} (hmem : "ticker" ∈ cols)
    (h : handle_trades_data symbol data cols = .ok F) : F.cols = cols := by
  simp only [handle_trades_data] at h
  cases hg : data.get? "trades" with
  | none => rw [hg] at h; cases h
  | some t =>
    rw [hg] at h
    have h2 : (if t.falsy = true then Except.ok (emptyFrame cols)
        else match t with
          | JVal.arr xs => mkDataFrame xs cols >>= fun f =>
              Except.ok (f.setCol "ticker" (JVal.str symbol))
          | _ => Except.error "trades is not a list") = .ok F := h
    split at h2
    · cases h2; rfl
    · cases t with
      | arr xs =>
        have h3 : (mkDataFrame xs cols >>= fun f =>
            Except.ok (f.setCol "ticker" (JVal.str symbol))) = .ok F := h2
        cases hmk : mkDataFrame xs cols with
        | error e => rw [hmk, exceptBind_error] at h3; cases h3
        | ok F0 =>
          rw [hmk, exceptBind_ok] at h3
          cases h3
          have hc := (mkDataFrame_ok hmk).1
          rw [setCol_cols (by rw [hc]; exact hmem), hc]
      | null => cases h2
      | bool b => cases h2
      | num n => cases h2
      | str s => cases h2
      | obj fs => cases h2

/-- Shape facts about one ownership entry frame. -/
theorem ownershipEntryFrame_spec {symbol : String} {cols : List String}
    {e : JVal} {F : Frame} (hmem : "ticker" ∈ cols)
    (h : ownershipEntryFrame symbol cols e = .ok F) :
    F.cols = cols ∧ F.rows.length = 1
      ∧ (∀ r ∈ F.rows, r.length = cols.length)
      ∧ (∀ r ∈ F.rows, F.cell r "ticker" = some (.str symbol)) := by
  simp only [ownershipEntryFrame] at h
  cases hmk : mkDataFrame [e] cols with
  | error e2 => rw [hmk, exceptBind_error] at h; cases h
  | ok F0 =>
    rw [hmk, exceptBind_ok] at h
    cases h
    obtain ⟨hc, hlen, hrl, _⟩ := mkDataFrame_ok hmk
    have hm0 : "ticker" ∈ F0.cols := by rw [hc]; exact hmem
    have hrl0 : ∀ r ∈ F0.rows, r.length = F0.cols.length := by
      intro r hr; rw [hrl r hr, hc]
    refine ⟨by rw [setCol_cols hm0, hc], by rw [setCol_rows_length, hlen]; rfl, ?_, ?_⟩
    · intro r hr
      have := setCol_row_length hm0 hrl0 r hr
      rw [this, hc]
    · exact setCol_cell hm0 hrl0

theorem handle_ownership_data_cols {symbol : String} {data : JVal}
    {cols : List String} {F : Frame} (hmem : "ticker" ∈ cols)
    (h : handle_ownership_data symbol data cols = .ok F) : F.cols = cols := by
  simp only [handle_ownership_data] at h
  cases hg : data.get? "data" with
  | none => rw [hg] at h; cases h
  | some d =>
    rw [hg] at h
    have h2 : (if d.falsy = true then Except.ok (emptyFrame cols)
        else match d with
          | JVal.arr days => do
              let framess ← mapME (ownershipDayFrames symbol cols) days
              let c ← pdConcat framess.flatten
              Except.ok ((c.resetIndex).sortValues ["ticker", "date", "weight_rank"])
          | _ => Except.error "data is not a list") = .ok F := h
    split at h2
    · cases h2; rfl
    · cases d with
      | arr days =>
        have h3 : (mapME (ownershipDayFrames symbol cols) days >>= fun framess =>
            pdConcat framess.flatten >>= fun c =>
            Except.ok ((c.resetIndex).sortValues ["ticker", "date", "weight_rank"]))
            = .ok F := h2
        cases hdf : mapME (ownershipDayFrames symbol cols) days with
        | error e => rw [hdf, exceptBind_error] at h3; cases h3
        | ok framess =>
          rw [hdf, exceptBind_ok] at h3
          cases hcc : pdConcat framess.flatten with
          | error e => rw [hcc, exceptBind_error] at h3; cases h3
          | ok c =>
            rw [hcc, exceptBind_ok] at h3
            cases h3
            rw [sortValues_cols, resetIndex_cols]
            refine pdConcat_ok_cols hcc ?_
            intro fr hfr
            rw [List.mem_flatten] at hfr
            obtain ⟨frames, hframes, hfr2⟩ := hfr
            obtain ⟨day, _, hday⟩ := mapME_ok_mem hdf frames hframes
            simp only [ownershipDayFrames] at hday
            cases hgo : day.get? "ownership" with
            | none => rw [hgo] at hday; cases hday
            | some ow =>
              rw [hgo] at hday
              cases ow with
              | arr entries =>
                obtain ⟨entry, _, hentry⟩ := mapME_ok_mem hday fr hfr2
                exact (ownershipEntryFrame_spec hmem hentry).1
              | null => cases hday
              | bool b => cases hday
              | num n => cases hday
              | str s => cases hday
              | obj fs => cases hday
      | null => cases h2
      | bool b => cases h2
      | num n => cases h2
      | str s => cases h2
      | obj fs => cases h2

theorem stockHandle_cols {op : StockOp} {s : String} {data : JVal} {F : Frame}
    (h : stockHandle op s data (stockColumns op) = .ok F) :
    F.cols = stockColumns op := by
  cases op with
  | profile => exact handle_profile_data_cols h
  | ownership => exact handle_ownership_data_cols (by decide) h
  | price => exact handle_price_data_cols (by decide) h
  | trades => exact handle_trades_data_cols (by decide) h

theorem stockFrames_cols (fetch : String → Option JVal) (op : StockOp)
    (symbols : List String) : ∀ {dfs : List Frame},
    stockFrames fetch op (stockColumns op) symbols = .ok dfs →
    ∀ df ∈ dfs, df.cols = stockColumns op := by
  induction symbols with
  | nil =>
    intro dfs h df hdf
    simp only [stockFrames] at h
    cases h
    cases hdf
  | cons s rest ih =>
    intro dfs h df hdf
    simp only [stockFrames] at h
    cases hfs : fetch s with
    | none => simp only [hfs] at h; exact ih h df hdf
    | some data =>
      simp only [hfs] at h
      cases hfal : data.falsy with
      | true =>
        rw [hfal] at h
        simp only [if_true] at h
        exact ih h df hdf
      | false =>
        rw [hfal] at h
        simp only [Bool.false_eq_true, if_false] at h
        cases hsh : stockHandle op s data (stockColumns op) with
        | error e => rw [hsh, exceptBind_error] at h; cases h
        | ok df0 =>
          rw [hsh, exceptBind_ok] at h
          cases hsf : stockFrames fetch op (stockColumns op) rest with
          | error e => rw [hsf, exceptBind_error] at h; cases h
          | ok dfs0 =>
            rw [hsf, exceptBind_ok] at h
            cases h
            split at hdf
            · exact ih hsf df hdf
            · cases hdf with
              | head => exact stockHandle_cols hsh
              | tail _ hdf2 => exact ih hsf df hdf2

/-- Column preservation for the tail of the ETF shaping pipeline. -/
theorem etfShapeTail_cols {cols : List String} {key : String}
    {res : Except String JVal} {F : Frame}
    (h : (res >>= fun d2 => getKey d2 key >>= fun v =>
        (match v with
          | JVal.arr xs => mkDataFrame xs cols
          | _ => mkDataFrame [v] cols)) = .ok F) : F.cols = cols := by
  cases res with
  | error e => rw [exceptBind_error] at h; cases h
  | ok d2 =>
    rw [exceptBind_ok] at h
    cases hg : getKey d2 key with
    | error e => rw [hg, exceptBind_error] at h; cases h
    | ok v =>
      rw [hg, exceptBind_ok] at h
      cases v with
      | arr xs => exact (mkDataFrame_ok h).1
      | null => exact (mkDataFrame_ok h).1
      | bool b => exact (mkDataFrame_ok h).1
      | num n => exact (mkDataFrame_ok h).1
      | str s => exact (mkDataFrame_ok h).1
      | obj fs => exact (mkDataFrame_ok h).1

theorem etfShapeOne_cols {eop : EtfOp} {cols : List String} {data : Option JVal}
    {F : Frame} (h : etfShapeOne eop cols data = .ok F) : F.cols = cols := by
  cases data with
  | none => cases h
  | some d =>
    cases eop with
    | performance =>
      exact @etfShapeTail_cols cols (etfKey .performance) (transform_performance_data d) F h
    | profile => exact @etfShapeTail_cols cols (etfKey .profile) (Except.ok d) F h
    | holdings => exact @etfShapeTail_cols cols (etfKey .holdings) (Except.ok d) F h
    | trades => exact @etfShapeTail_cols cols (etfKey .trades) (Except.ok d) F h
    | news => exact @etfShapeTail_cols cols (etfKey .news) (Except.ok d) F h

/-- Every frame collected by the ETF loop is the shape of some fetched
symbol. -/
theorem etfFrames_mem (efetch : String → Option JVal) (eop : EtfOp)
    (cols : List String) (symbols : List String) : ∀ {dfs : List Frame},
    etfFrames efetch eop cols symbols = .ok dfs →
    ∀ df ∈ dfs, ∃ s, etfShapeOne eop cols (efetch s) = .ok df := by
  induction symbols with
  | nil =>
    intro dfs h df hdf
    simp only [etfFrames] at h
    cases h
    cases hdf
  | cons s rest ih =>
    intro dfs h df hdf
    simp only [etfFrames] at h
    cases hsh : etfShapeOne eop cols (efetch s) with
    | error e => rw [hsh, exceptBind_error] at h; cases h
    | ok df0 =>
      rw [hsh, exceptBind_ok] at h
      cases hrest : etfFrames efetch eop cols rest with
      | error e => rw [hrest, exceptBind_error] at h; cases h
      | ok dfs0 =>
        rw [hrest, exceptBind_ok] at h
        cases h
        cases hdf with
        | head => exact ⟨s, hsh⟩
        | tail _ hdf2 => exact ih hrest df hdf2

/-- With every fetch returning 404, the Stock loop collects no frame. -/
theorem stockFrames_all404 (op : StockOp) (cols : List String) :
    ∀ symbols : List String, stockFrames (fun _ => none) op cols symbols = .ok [] := by
  intro symbols
  induction symbols with
  | nil => rfl
  | cons s rest ih =>
    simp only [stockFrames]
    exact ih

/-- C4: on every operation the Result Table carries exactly the declared
ordered column schema whenever a table is returned, however many rows it
has; in particular an all-404 run returns the schema-correct zero-row
table instead of raising.  The ETF facade likewise returns tables carrying
exactly its declared schema. -/
theorem c4_result_columns (op : StockOp) (fetch : String → Option JVal)
    (symbols : List String) :
    (∀ f, stock_dataframe fetch op symbols = .ok f → f.cols = stockColumns op)
    ∧ stock_dataframe (fun _ => none) op symbols = .ok (emptyFrame (stockColumns op))
    ∧ (∀ (st : EtfState) (eop : EtfOp) (efetch : String → Option JVal) (g : Frame),
        etf_dataframe st efetch eop = .ok (.table g) → g.cols = etfColumns eop) := by
  refine ⟨?_, ?_, ?_⟩
  · intro f h
    simp only [stock_dataframe] at h
    cases hsf : stockFrames fetch op (stockColumns op) symbols with
    | error e => rw [hsf, exceptBind_error] at h; cases h
    | ok dfs =>
      rw [hsf, exceptBind_ok] at h
      cases dfs with
      | nil =>
        simp only [List.isEmpty_nil, if_true] at h
        cases h
        rfl
      | cons d ds =>
        simp only [List.isEmpty_cons, Bool.false_eq_true, if_false] at h
        rw [show pdConcat (d :: ds) = .ok
            ⟨d.cols, ((d :: ds).map Frame.rows).flatten,
              ((d :: ds).map Frame.index).flatten⟩ from rfl, exceptBind_ok] at h
        cases h
        rw [resetIndex_cols]
        exact stockFrames_cols fetch op symbols hsf d (by simp)
  · simp only [stock_dataframe, stockFrames_all404, exceptBind_ok,
      List.isEmpty_nil, if_true]
  · intro st eop efetch g h
    simp only [etf_dataframe] at h
    split at h
    · cases h
    · cases hef : etfFrames efetch eop (etfColumns eop) st.symbols with
      | error e => rw [hef, exceptBind_error] at h; cases h
      | ok dfs =>
        rw [hef, exceptBind_ok] at h
        cases dfs with
        | nil => cases h
        | cons d ds =>
          rw [show pdConcat (d :: ds) = .ok
              ⟨d.cols, ((d :: ds).map Frame.rows).flatten,
                ((d :: ds).map Frame.index).flatten⟩ from rfl, exceptBind_ok] at h
          cases h
          rw [resetIndex_cols]
          obtain ⟨sy, hsh⟩ := etfFrames_mem efetch eop (etfColumns eop)
            st.symbols hef d (by simp)
          show d.cols = etfColumns eop
          exact etfShapeOne_cols hsh

/-- Witness for C4 on a 404 stock profile call and a concrete ETF profile
call. -/
theorem c4_result_columns_witness :
    (emptyFrame (stockColumns .profile)).cols = stockColumns .profile
    ∧ stock_dataframe (fun _ => none) .profile ["TSLA"]
        = .ok (emptyFrame (stockColumns .profile))
    ∧ (Frame.mk (etfColumns .profile)
        [[some (.str "ARKK"), none, none, none, none, none, none, none]] [0]).cols
      = etfColumns .profile :=
  ⟨(c4_result_columns .profile (fun _ => none) ["TSLA"]).1
      (emptyFrame (stockColumns .profile))
      ((c4_result_columns .profile (fun _ => none) ["TSLA"]).2.1),
   (c4_result_columns .profile (fun _ => none) ["TSLA"]).2.1,
   (c4_result_columns .profile (fun _ => none) ["TSLA"]).2.2
      (EtfState.mk ["ARKK"] none) .profile
      (fun _ => some (.obj [("profile", .obj [("symbol", .str "ARKK")])]))
      (Frame.mk (etfColumns .profile)
        [[some (.str "ARKK"), none, none, none, none, none, none, none]] [0]) rfl⟩

/-- C10: the price shaper overwrites the ticker field of every produced
record with the requested symbol, discarding any ticker value of the
payload, exactly as the trades shaper does: in both shapers every row of a
non-empty result carries the requested symbol in the ticker column. -/
theorem c10_price_trades_ticker_stamp (symbol : String) (dataP dataT : JVal)
    (f g : Frame)
    (hp : handle_price_data symbol dataP (stockColumns .price) = .ok f)
    (ht : handle_trades_data symbol dataT (stockColumns .trades) = .ok g) :
    (∀ r ∈ f.rows, f.cell r "ticker" = some (.str symbol))
    ∧ (∀ r ∈ g.rows, g.cell r "ticker" = some (.str symbol)) := by
  constructor
  · cases dataP with
    | obj fs =>
      have h2 : (if fs.all (fun kv => kv.1 == "symbol" || kv.2.isNull) = true
          then Except.ok (emptyFrame (stockColumns .price))
          else mkDataFrame [JVal.obj fs] (stockColumns .price) >>= fun f0 =>
            Except.ok (f0.setCol "ticker" (JVal.str symbol))) = .ok f := hp
      split at h2
      · cases h2
        intro r hr
        cases hr
      · cases hmk : mkDataFrame [JVal.obj fs] (stockColumns .price) with
        | error e => rw [hmk, exceptBind_error] at h2; cases h2
        | ok F0 =>
          rw [hmk, exceptBind_ok] at h2
          cases h2
          obtain ⟨hc, _, hrl, _⟩ := mkDataFrame_ok hmk
          exact setCol_cell (by rw [hc]; decide)
            (by intro r hr; rw [hrl r hr, hc])
    | null => cases hp
    | bool b => cases hp
    | num n => cases hp
    | str s => cases hp
    | arr xs => cases hp
  · simp only [handle_trades_data] at ht
    cases hg : dataT.get? "trades" with
    | none => rw [hg] at ht; cases ht
    | some t =>
      rw [hg] at ht
      have h2 : (if t.falsy = true then Except.ok (emptyFrame (stockColumns .trades))
          else match t with
            | JVal.arr xs => mkDataFrame xs (stockColumns .trades) >>= fun f0 =>
                Except.ok (f0.setCol "ticker" (JVal.str symbol))
            | _ => Except.error "trades is not a list") = .ok g := ht
      split at h2
      · cases h2
        intro r hr
        cases hr
      · cases t with
        | arr xs =>
          have h3 : (mkDataFrame xs (stockColumns .trades) >>= fun f0 =>
              Except.ok (f0.setCol "ticker" (JVal.str symbol))) = .ok g := h2
          cases hmk : mkDataFrame xs (stockColumns .trades) with
          | error e => rw [hmk, exceptBind_error] at h3; cases h3
          | ok F0 =>
            rw [hmk, exceptBind_ok] at h3
            cases h3
            obtain ⟨hc, _, hrl, _⟩ := mkDataFrame_ok hmk
            exact setCol_cell (by rw [hc]; decide)
              (by intro r hr; rw [hrl r hr, hc])
        | null => cases h2
        | bool b => cases h2
        | num n => cases h2
        | str s => cases h2
        | obj fs => cases h2

/-- Witness for C10 on concrete price and trades payloads. -/
theorem c10_price_trades_ticker_stamp_witness :
    (∀ r ∈ (Frame.mk (stockColumns .price)
        [[some (.str "TSLA"), none, none, some (.num 1), none, none, none]] [0]).rows,
      (Frame.mk (stockColumns .price)
        [[some (.str "TSLA"), none, none, some (.num 1), none, none, none]] [0]).cell
          r "ticker" = some (.str "TSLA"))
    ∧ (∀ r ∈ (Frame.mk (stockColumns .trades)
        [[some (.str "TSLA"), none, none, none, none, none]] [0]).rows,
      (Frame.mk (stockColumns .trades)
        [[some (.str "TSLA"), none, none, none, none, none]] [0]).cell
          r "ticker" = some (.str "TSLA")) :=
  c10_price_trades_ticker_stamp "TSLA"
    (.obj [("price", .num 1)]) (.obj [("trades", .arr [.obj []])])
    (Frame.mk (stockColumns .price)
      [[some (.str "TSLA"), none, none, some (.num 1), none, none, none]] [0])
    (Frame.mk (stockColumns .trades)
      [[some (.str "TSLA"), none, none, none, none, none]] [0])
    rfl rfl

/-- `mapME` on a two-element list. -/
theorem mapME_pair {α β : Type} {g : α → Except String β} {d1 d2 : α} {a b : β}
    (h1 : g d1 = .ok a) (h2 : g d2 = .ok b) : mapME g [d1, d2] = .ok [a, b] := by
  simp only [mapME]
  rw [h1, h2]
  simp only [exceptBind_ok]

/-- Frames of one row each flatten to one row per frame. -/
theorem flatten_rows_length {L : List Frame} (h : ∀ fr ∈ L, fr.rows.length = 1) :
    ((L.map Frame.rows).flatten).length = L.length := by
  induction L with
  | nil => rfl
  | cons a l ih =>
    simp only [List.map_cons, List.flatten_cons, List.length_append,
      h a (by simp), ih (fun fr hfr => h fr (by simp [hfr])), List.length_cons]
    omega

/-- Shape facts about the frames one day block contributes. -/
theorem ownershipDayFrames_spec {symbol : String} {cols : List String}
    (hmem : "ticker" ∈ cols) (ex : List JVal) (rest : List (String × JVal))
    (ho : ∀ e ∈ ex, ∃ fs, e = JVal.obj fs) :
    ∃ Fs, ownershipDayFrames symbol cols (.obj (("ownership", .arr ex) :: rest))
        = .ok Fs
      ∧ Fs.length = ex.length
      ∧ ∀ fr ∈ Fs, fr.cols = cols ∧ fr.rows.length = 1
          ∧ (∀ r ∈ fr.rows, r.length = cols.length)
          ∧ (∀ r ∈ fr.rows, fr.cell r "ticker" = some (.str symbol)) := by
  have hday : ownershipDayFrames symbol cols (.obj (("ownership", .arr ex) :: rest))
      = mapME (ownershipEntryFrame symbol cols) ex := rfl
  rw [hday]
  obtain ⟨Fs, hFs⟩ := @mapME_ok_exists JVal Frame (ownershipEntryFrame symbol cols) ex (by
    intro e he
    obtain ⟨fs, rfl⟩ := ho e he
    exact ⟨_, rfl⟩)
  refine ⟨Fs, hFs, mapME_ok_length hFs, ?_⟩
  intro fr hfr
  obtain ⟨e, he, hfe⟩ := mapME_ok_mem hFs fr hfr
  exact ownershipEntryFrame_spec hmem hfe

/-- C5 (amended): for a payload with 2 day-blocks each holding N ≥ 1
ownership entries (dict entries, as the API delivers), the shaper
produces exactly `2*N` records, one per (day-block, entry) pair, each
carrying the requested symbol in the ticker field, and the final sequence
is sorted ascending by (ticker, date, weight_rank).  (For N = 0 the claim
fails: `pd.concat` receives no frame and raises — see the
counterexample.) -/
theorem c5_ownership_flattening (symbol : String) (n : Nat)
    (ex1 ex2 : List JVal) (rest1 rest2 : List (String × JVal))
    (hl1 : ex1.length = n) (hl2 : ex2.length = n) (hn : 1 ≤ n)
    (ho1 : ∀ e ∈ ex1, ∃ fs, e = JVal.obj fs)
    (ho2 : ∀ e ∈ ex2, ∃ fs, e = JVal.obj fs) :
    ∃ f, handle_ownership_data symbol
        (.obj [("data", .arr [.obj (("ownership", .arr ex1) :: rest1),
                              .obj (("ownership", .arr ex2) :: rest2)])])
        (stockColumns .ownership) = .ok f
      ∧ f.rows.length = 2 * n
      ∧ (∀ r ∈ f.rows, f.cell r "ticker" = some (.str symbol))
      ∧ ownershipSorted f := by
  have hmem : "ticker" ∈ stockColumns .ownership := by decide
  obtain ⟨F1, hF1, hlen1, hspec1⟩ := ownershipDayFrames_spec hmem ex1 rest1 ho1
  obtain ⟨F2, hF2, hlen2, hspec2⟩ := ownershipDayFrames_spec hmem ex2 rest2 ho2
  have hmm : mapME (ownershipDayFrames symbol (stockColumns .ownership))
      [JVal.obj (("ownership", .arr ex1) :: rest1),
       JVal.obj (("ownership", .arr ex2) :: rest2)] = .ok [F1, F2] :=
    mapME_pair hF1 hF2
  have hmain : handle_ownership_data symbol
      (.obj [("data", .arr [.obj (("ownership", .arr ex1) :: rest1),
                            .obj (("ownership", .arr ex2) :: rest2)])])
      (stockColumns .ownership)
      = (mapME (ownershipDayFrames symbol (stockColumns .ownership))
          [JVal.obj (("ownership", .arr ex1) :: rest1),
           JVal.obj (("ownership", .arr ex2) :: rest2)] >>= fun framess =>
         pdConcat framess.flatten >>= fun c =>
         Except.ok ((c.resetIndex).sortValues ["ticker", "date", "weight_rank"])) := rfl
  rw [hmain, hmm, exceptBind_ok]
  have hflat : ([F1, F2] : List (List Frame)).flatten = F1 ++ F2 := by
    simp
  rw [hflat]
  have hspecs : ∀ fr ∈ F1 ++ F2, fr.cols = stockColumns .ownership
      ∧ fr.rows.length = 1
      ∧ (∀ r ∈ fr.rows, r.length = (stockColumns .ownership).length)
      ∧ (∀ r ∈ fr.rows, fr.cell r "ticker" = some (.str symbol)) := by
    intro fr hfr
    rcases List.mem_append.mp hfr with hm | hm
    · exact hspec1 fr hm
    · exact hspec2 fr hm
  cases hcase : F1 with
  | nil => rw [hcase] at hlen1; simp at hlen1; omega
  | cons f0 F1t =>
    subst hcase
    rw [List.cons_append]
    rw [show pdConcat (f0 :: (F1t ++ F2)) = .ok
        ⟨f0.cols, ((f0 :: (F1t ++ F2)).map Frame.rows).flatten,
          ((f0 :: (F1t ++ F2)).map Frame.index).flatten⟩ from rfl, exceptBind_ok]
    refine ⟨_, rfl, ?_, ?_, ?_⟩
    · -- row count
      rw [sortValues_rows_length]
      have hclen : (((f0 :: (F1t ++ F2)).map Frame.rows).flatten).length
          = (f0 :: (F1t ++ F2)).length := by
        refine flatten_rows_length ?_
        intro fr hfr
        exact (hspecs fr (by simpa using hfr)).2.1
      simp only [Frame.resetIndex, List.length_range]
      rw [hclen]
      simp only [List.length_cons, List.length_append]
      have : F1t.length + 1 = n := by rw [← hl1]; simpa using hlen1
      omega
    · -- ticker stamped on every row
      intro r hr
      have hrc : r ∈ ((f0 :: (F1t ++ F2)).map Frame.rows).flatten := by
        have := sortValues_mem_rows hr
        simpa [Frame.resetIndex] using this
      rw [List.mem_flatten] at hrc
      obtain ⟨rows0, hrows0, hrmem⟩ := hrc
      rw [List.mem_map] at hrows0
      obtain ⟨fr, hfr, rfl⟩ := hrows0
      obtain ⟨hfc, _, _, htick⟩ := hspecs fr (by simpa using hfr)
      have := htick r hrmem
      simp only [Frame.cell] at this ⊢
      rw [show (((Frame.mk f0.cols (((f0 :: (F1t ++ F2)).map Frame.rows).flatten)
          (((f0 :: (F1t ++ F2)).map Frame.index).flatten)).resetIndex).sortValues
          ["ticker", "date", "weight_rank"]).cols = f0.cols from rfl]
      rw [(hspecs f0 (by simp)).1, ← hfc]
      exact this
    · -- sortedness
      exact sortValues_sorted
        ((Frame.mk f0.cols (((f0 :: (F1t ++ F2)).map Frame.rows).flatten)
          (((f0 :: (F1t ++ F2)).map Frame.index).flatten)).resetIndex)
        ["ticker", "date", "weight_rank"]

/-- C5 counterexample: with 2 day-blocks each holding N = 0 ownership
entries the claim demands 2*0 = 0 records, but the shaper raises: the
per-entry frame list is empty and `pd.concat` refuses it. -/
theorem c5_counterexample_zero_entries :
    handle_ownership_data "TSLA"
      (.obj [("data", .arr [.obj [("ownership", .arr [])],
                            .obj [("ownership", .arr [])]])])
      (stockColumns .ownership)
      = .error "ValueError: No objects to concatenate" := by
  rfl

/-- Witness for C5 at N = 1. -/
theorem c5_ownership_flattening_witness :
    ∃ f, handle_ownership_data "TSLA"
        (.obj [("data", .arr
          [.obj (("ownership", .arr [.obj [("weight_rank", .num 1)]]) :: []),
           .obj (("ownership", .arr [.obj [("weight_rank", .num 2)]]) :: [])])])
        (stockColumns .ownership) = .ok f
      ∧ f.rows.length = 2 * 1
      ∧ (∀ r ∈ f.rows, f.cell r "ticker" = some (.str "TSLA"))
      ∧ ownershipSorted f :=
  c5_ownership_flattening "TSLA" 1
    [.obj [("weight_rank", .num 1)]] [.obj [("weight_rank", .num 2)]] [] []
    rfl rfl (by omega)
    (by intro e he; simp only [List.mem_singleton] at he; exact ⟨_, he⟩)
    (by intro e he; simp only [List.mem_singleton] at he; exact ⟨_, he⟩)

/-- When `asOfDate` is present, one block of the performance transform
maps each non-`asOfDate` key to one row dated by the `asOfDate` value. -/
theorem perfBlockRows_ok {fund : JVal} {label : String} {fs : List (String × JVal)}
    {d : JVal} (hd : fs.lookup "asOfDate" = some d) :
    perfBlockRows fund label (.obj fs)
      = .ok ((fs.filter (fun kv => !(kv.1 == "asOfDate"))).map
          (fun kv => perfBlockRow fund label d kv.1 kv.2)) := by
  have h : perfBlockRows fund label (.obj fs)
      = mapME
          (fun kv =>
            match fs.lookup "asOfDate" with
            | some d2 => .ok (perfBlockRow fund label d2 kv.1 kv.2)
            | none => .error "KeyError: asOfDate")
          (fs.filter (fun kv => !(kv.1 == "asOfDate"))) := rfl
  rw [h]
  refine mapME_ok_of_forall _ ?_
  intro kv _
  rw [hd]

/-- One annual-returns element with `year` and `value` present becomes one
row with the synthesized date and period. -/
theorem annualRow_ok {fund e y v : JVal}
    (hy : e.get? "year" = some y) (hv : e.get? "value" = some v) :
    annualRow fund e = .ok (.obj [("fund", fund), ("datatype", .str "AnnualReturns"),
      ("as_of_date", .str (pyStr y ++ "-12-31")),
      ("period", .str (pyStr y)), ("return", v)]) := by
  simp only [annualRow, getKey, hy, hv, exceptBind_ok]

/-- A successful annual row determines the shape of the row. -/
theorem annualRow_ok_shape {fund e r : JVal} (h : annualRow fund e = .ok r) :
    ∃ y v, e.get? "year" = some y ∧ e.get? "value" = some v
      ∧ r = .obj [("fund", fund), ("datatype", .str "AnnualReturns"),
          ("as_of_date", .str (pyStr y ++ "-12-31")),
          ("period", .str (pyStr y)), ("return", v)] := by
  cases hy : e.get? "year" with
  | none =>
    have he : annualRow fund e = .error ("KeyError or TypeError: " ++ "year") := by
      simp only [annualRow, getKey, hy, exceptBind_error]
    rw [he] at h
    cases h
  | some y =>
    cases hv : e.get? "value" with
    | none =>
      have he : annualRow fund e = .error ("KeyError or TypeError: " ++ "value") := by
        simp only [annualRow, getKey, hy, hv, exceptBind_ok, exceptBind_error]
      rw [he] at h
      cases h
    | some v =>
      rw [annualRow_ok hy hv] at h
      cases h
      exact ⟨y, v, rfl, rfl, rfl⟩

/-- C3: for a performance payload whose overview has 3 period keys plus
`asOfDate`, whose trailing-returns has 2 period keys plus `asOfDate`, and
whose annual-returns list has 5 entries, the transform yields exactly
`3+2+5 = 10` rows; the `asOfDate` keys yield no row of their own but date
every row of their block; each annual row is dated `{year}-12-31` with
`period` the year rendered as a string; and every row's fund field is the
payload symbol. -/
theorem c3_performance_transform (sym d1 d2 : JVal)
    (ov tr : List (String × JVal)) (an : List JVal)
    (hov : ov.lookup "asOfDate" = some d1)
    (hovn : (ov.filter (fun kv => !(kv.1 == "asOfDate"))).length = 3)
    (htr : tr.lookup "asOfDate" = some d2)
    (htrn : (tr.filter (fun kv => !(kv.1 == "asOfDate"))).length = 2)
    (han : an.length = 5)
    (hany : ∀ e ∈ an, ∃ (y : Int) (v : JVal),
        e.get? "year" = some (.num y) ∧ e.get? "value" = some v) :
    ∃ rows1 rows2 rows3 : List JVal,
      transform_performance_data
        (.obj [("symbol", sym),
               ("performance", .arr [.obj [("overview", .obj ov),
                 ("trailingReturns", .obj tr), ("annualReturns", .arr an)]])])
        = .ok (.obj [("performance", .arr (rows1 ++ rows2 ++ rows3))])
      ∧ rows1.length = 3 ∧ rows2.length = 2 ∧ rows3.length = 5
      ∧ (rows1 ++ rows2 ++ rows3).length = 10
      ∧ (∀ r ∈ rows1 ++ rows2 ++ rows3, r.get? "fund" = some sym)
      ∧ (∀ r ∈ rows1, r.get? "datatype" = some (.str "Overview")
          ∧ r.get? "as_of_date" = some d1)
      ∧ (∀ r ∈ rows2, r.get? "datatype" = some (.str "TrailingReturns")
          ∧ r.get? "as_of_date" = some d2)
      ∧ List.Forall₂ (fun e r => ∀ y : Int, e.get? "year" = some (.num y) →
          r.get? "datatype" = some (.str "AnnualReturns")
          ∧ r.get? "as_of_date" = some (.str (toString y ++ "-12-31"))
          ∧ r.get? "period" = some (.str (toString y))) an rows3 := by
  obtain ⟨rows3, hrows3⟩ := @mapME_ok_exists JVal JVal (annualRow sym) an (by
    intro e he
    obtain ⟨y, v, hy, hv⟩ := hany e he
    exact ⟨_, annualRow_ok hy hv⟩)
  have hfa := mapME_ok_forall₂ hrows3
  have hlen3 : rows3.length = 5 := by rw [← hfa.length_eq]; exact han
  refine ⟨(ov.filter (fun kv => !(kv.1 == "asOfDate"))).map
      (fun kv => perfBlockRow sym "Overview" d1 kv.1 kv.2),
    (tr.filter (fun kv => !(kv.1 == "asOfDate"))).map
      (fun kv => perfBlockRow sym "TrailingReturns" d2 kv.1 kv.2),
    rows3, ?_, ?_, ?_, hlen3, ?_, ?_, ?_, ?_, ?_⟩
  · have hmain : transform_performance_data
        (.obj [("symbol", sym),
               ("performance", .arr [.obj [("overview", .obj ov),
                 ("trailingReturns", .obj tr), ("annualReturns", .arr an)]])])
        = (perfBlockRows sym "Overview" (.obj ov) >>= fun rows1 =>
           perfBlockRows sym "TrailingReturns" (.obj tr) >>= fun rows2 =>
           mapME (annualRow sym) an >>= fun rows3 =>
           Except.ok (.obj [("performance", .arr (rows1 ++ rows2 ++ rows3))])) := rfl
    rw [hmain, perfBlockRows_ok hov, exceptBind_ok, perfBlockRows_ok htr,
      exceptBind_ok, hrows3, exceptBind_ok]
  · simp [hovn]
  · simp [htrn]
  · simp only [List.length_append, List.length_map, hovn, htrn, hlen3]
  · intro r hr
    rcases List.mem_append.mp hr with hr2 | hr3
    · rcases List.mem_append.mp hr2 with hm | hm
      · obtain ⟨kv, _, rfl⟩ := List.mem_map.mp hm
        rfl
      · obtain ⟨kv, _, rfl⟩ := List.mem_map.mp hm
        rfl
    · obtain ⟨e, _, hR⟩ := mapME_ok_mem hrows3 r hr3
      obtain ⟨y, v, _, _, rfl⟩ := annualRow_ok_shape hR
      rfl
  · intro r hm
    obtain ⟨kv, _, rfl⟩ := List.mem_map.mp hm
    exact ⟨rfl, rfl⟩
  · intro r hm
    obtain ⟨kv, _, rfl⟩ := List.mem_map.mp hm
    exact ⟨rfl, rfl⟩
  · refine hfa.imp ?_
    intro e r hR y hy2
    obtain ⟨y2, v, hy3, _, rfl⟩ := annualRow_ok_shape hR
    have : y2 = JVal.num y := by
      rw [hy2] at hy3
      exact (Option.some.inj hy3).symm
    subst this
    exact ⟨rfl, rfl, rfl⟩

/-- Witness for C3 on a concrete 3+2+5 performance payload. -/
theorem c3_performance_transform_witness :
    ∃ rows1 rows2 rows3 : List JVal,
      transform_performance_data
        (.obj [("symbol", .str "ARKK"),
               ("performance", .arr [.obj [("overview", .obj
                  [("asOfDate", .str "2024-06-30"), ("ytd", .num 1),
                   ("oneYear", .num 2), ("threeYear", .num 3)]),
                 ("trailingReturns", .obj
                  [("asOfDate", .str "2024-05-31"), ("oneMonth", .num 4),
                   ("threeMonth", .num 5)]),
                 ("annualReturns", .arr
                  [.obj [("year", .num 2019), ("value", .num 10)],
                   .obj [("year", .num 2020), ("value", .num 11)],
                   .obj [("year", .num 2021), ("value", .num 12)],
                   .obj [("year", .num 2022), ("value", .num 13)],
                   .obj [("year", .num 2023), ("value", .num 14)]])]])])
        = .ok (.obj [("performance", .arr (rows1 ++ rows2 ++ rows3))])
      ∧ rows1.length = 3 ∧ rows2.length = 2 ∧ rows3.length = 5
      ∧ (rows1 ++ rows2 ++ rows3).length = 10
      ∧ (∀ r ∈ rows1 ++ rows2 ++ rows3, r.get? "fund" = some (.str "ARKK"))
      ∧ (∀ r ∈ rows1, r.get? "datatype" = some (.str "Overview")
          ∧ r.get? "as_of_date" = some (.str "2024-06-30"))
      ∧ (∀ r ∈ rows2, r.get? "datatype" = some (.str "TrailingReturns")
          ∧ r.get? "as_of_date" = some (.str "2024-05-31"))
      ∧ List.Forall₂ (fun (e r : JVal) => ∀ y : Int, e.get? "year" = some (.num y) →
          r.get? "datatype" = some (.str "AnnualReturns")
          ∧ r.get? "as_of_date" = some (.str (toString y ++ "-12-31"))
          ∧ r.get? "period" = some (.str (toString y)))
        [.obj [("year", .num 2019), ("value", .num 10)],
         .obj [("year", .num 2020), ("value", .num 11)],
         .obj [("year", .num 2021), ("value", .num 12)],
         .obj [("year", .num 2022), ("value", .num 13)],
         .obj [("year", .num 2023), ("value", .num 14)]] rows3 :=
  c3_performance_transform (.str "ARKK") (.str "2024-06-30") (.str "2024-05-31")
    [("asOfDate", .str "2024-06-30"), ("ytd", .num 1),
     ("oneYear", .num 2), ("threeYear", .num 3)]
    [("asOfDate", .str "2024-05-31"), ("oneMonth", .num 4), ("threeMonth", .num 5)]
    [.obj [("year", .num 2019), ("value", .num 10)],
     .obj [("year", .num 2020), ("value", .num 11)],
     .obj [("year", .num 2021), ("value", .num 12)],
     .obj [("year", .num 2022), ("value", .num 13)],
     .obj [("year", .num 2023), ("value", .num 14)]]
    rfl rfl rfl rfl rfl
    (by
      intro e he
      simp only [List.mem_cons, List.not_mem_nil, or_false] at he
      rcases he with rfl | rfl | rfl | rfl | rfl <;> exact ⟨_, _, rfl, rfl⟩)
